import Mathlib

/-!
Shallow embedding of the storage core of the go-ipfs repository sample:
the garbage-collector entry points (`core/corerepo/gc.go`), the ingestion
pipeline of the `add` command (`core/commands/add.go`), the fuse mount
command (`doMount`) and the dial-time address filter (`Filters.AddrBlocked`).
Each definition is translated from the corresponding Go function; external
collaborators (the per-domain mark-and-sweep `gc.GC`, the chunker, the
multihash function, `net.ParseIP`, fuse mounting) enter as explicit
parameters or injected outcomes.  Theorems state and settle the documented
behaviour of these functions.
-/

namespace GoIpfs

/-- Keys of the block store (`key.Key` is a string type in the source). -/
abbrev Key := String

/-- Outcome of one invocation of the external per-domain collector `gc.GC`:
either the invocation fails with an error, or it succeeds and yields a
stream of removed keys (modelled as the list of events the stream delivers
before the producer closes it). -/
inductive DomainReq where
  | fail (e : String)
  | ok (stream : List Key)

/-- The error value `ctx.Err()` returns once the context is cancelled. -/
def ctxErr : String := "context canceled"

/-- One iteration of the `select` loop in `GarbageCollect` chooses a ready
branch: receive from the data-domain stream, receive from the internal
stream, or observe `ctx.Done()`. -/
inductive SelectChoice where
  | recvData
  | recvInternal
  | ctxDone

/-- The drain loop of `GarbageCollect` (gc.go lines 29-50), one constructor
per `select` branch.  State: the events still pending on each stream (an
empty list is a closed channel, whose receive yields `ok = false`), and the
`normalDone` / `internalDone` flags.  The result records the returned value
(`none` inside = the `return nil` path, `some e` = an error return) together
with the events still pending on each stream at the moment of return;
`none` overall means the schedule ran out while the loop was still running. -/
def drainLoop : List SelectChoice → List Key → List Key → Bool → Bool →
    Option (Option String × List Key × List Key)
  | [], _, _, _, _ => none
  | SelectChoice.recvData :: rest, d, i, nd, id =>
    match d with
    | [] => if id then some (none, [], i) else drainLoop rest [] i true id
    | _ :: ds => drainLoop rest ds i nd id
  | SelectChoice.recvInternal :: rest, d, i, nd, id =>
    match i with
    | [] => if nd then some (none, d, []) else drainLoop rest d [] nd true
    | _ :: is2 => drainLoop rest d is2 nd id
  | SelectChoice.ctxDone :: _, d, i, _, _ => some (some ctxErr, d, i)

/-- What one call of the synchronous entry point did: whether each domain's
`gc.GC` was invoked, and the drain outcome (for the early error returns the
outcome is the returned error with no streams pending). -/
structure GCRun where
  requestedData : Bool
  requestedInternal : Bool
  outcome : Option (Option String × List Key × List Key)
deriving DecidableEq

/-- Translation of `GarbageCollect` (gc.go lines 18-52): invoke `gc.GC` on
the data domain (`n.Blockstore`), returning its error at once on failure;
then invoke it on the internal domain (`n.PrivBlocks`), returning its error
at once on failure; then drain both streams under the given schedule. -/
def GarbageCollect (dataReq internalReq : DomainReq) (sched : List SelectChoice) : GCRun :=
  match dataReq with
  | DomainReq.fail e => { requestedData := true, requestedInternal := false,
                          outcome := some (some e, [], []) }
  | DomainReq.ok rmed =>
    match internalReq with
    | DomainReq.fail e => { requestedData := true, requestedInternal := true,
                            outcome := some (some e, [], []) }
    | DomainReq.ok internal =>
      { requestedData := true, requestedInternal := true,
        outcome := drainLoop sched rmed internal false false }

/-- In `drainLoop`, provided the done flags are faithful (a set flag means
that stream is already exhausted), the `return nil` path is reached only
with both streams exhausted. -/
theorem drainLoop_nil_closed (s : List SelectChoice) :
    ∀ d i nd id d2 i2, (nd = true → d = []) → (id = true → i = []) →
      drainLoop s d i nd id = some (none, d2, i2) → d2 = [] ∧ i2 = [] := by
  induction s with
  | nil => intro d i nd id d2 i2 _ _ h; simp [drainLoop] at h
  | cons c rest ih =>
    intro d i nd id d2 i2 hnd hid h
    cases c with
    | recvData =>
      cases d with
      | nil =>
        by_cases hI : id = true
        · rw [drainLoop, if_pos hI] at h
          simp only [Option.some.injEq, Prod.mk.injEq] at h
          exact ⟨h.2.1.symm, h.2.2 ▸ hid hI⟩
        · rw [drainLoop, if_neg hI] at h
          exact ih [] i true id d2 i2 (fun _ => rfl) hid h
      | cons x ds =>
        cases nd with
        | true => exact absurd (hnd rfl) (by simp)
        | false =>
          rw [drainLoop] at h
          exact ih ds i false id d2 i2 (by simp) hid h
    | recvInternal =>
      cases i with
      | nil =>
        by_cases hN : nd = true
        · rw [drainLoop, if_pos hN] at h
          simp only [Option.some.injEq, Prod.mk.injEq] at h
          exact ⟨h.2.1 ▸ hnd hN, h.2.2.symm⟩
        · rw [drainLoop, if_neg hN] at h
          exact ih d [] nd true d2 i2 hnd (fun _ => rfl) h
      | cons x is2 =>
        cases id with
        | true => exact absurd (hid rfl) (by simp)
        | false =>
          rw [drainLoop] at h
          exact ih d is2 nd false d2 i2 hnd (by simp) h
    | ctxDone =>
      rw [drainLoop] at h
      simp [ctxErr] at h

/-- An error return of the drain loop can only be the cancellation error:
the loop body itself never fails. -/
theorem drainLoop_error_is_cancel (s : List SelectChoice) :
    ∀ d i nd id e d2 i2,
      drainLoop s d i nd id = some (some e, d2, i2) → e = ctxErr := by
  induction s with
  | nil => intro d i nd id e d2 i2 h; simp [drainLoop] at h
  | cons c rest ih =>
    intro d i nd id e d2 i2 h
    cases c with
    | recvData =>
      cases d with
      | nil =>
        by_cases hI : id = true
        · rw [drainLoop, if_pos hI] at h
          have := (Prod.mk.injEq .. ▸ Option.some.inj h).1
          simp at this
        · rw [drainLoop, if_neg hI] at h
          exact ih [] i true id e d2 i2 h
      | cons x ds =>
        rw [drainLoop] at h
        exact ih ds i nd id e d2 i2 h
    | recvInternal =>
      cases i with
      | nil =>
        by_cases hN : nd = true
        · rw [drainLoop, if_pos hN] at h
          have := (Prod.mk.injEq .. ▸ Option.some.inj h).1
          simp at this
        · rw [drainLoop, if_neg hN] at h
          exact ih d [] nd true e d2 i2 h
      | cons x is2 =>
        rw [drainLoop] at h
        exact ih d is2 nd id e d2 i2 h
    | ctxDone =>
      rw [drainLoop] at h
      simp only [Option.some.injEq, Prod.mk.injEq] at h
      exact h.1.symm

/-- C1 (counterexample): the claim says a failure in one block-store domain
does not prevent the mark-and-sweep of the other domain from being
requested.  On the code this is false: when the data domain's `gc.GC`
invocation fails, `GarbageCollect` returns that error at once and the
internal domain is never requested.  Concretely, with the data-domain
request failing and the internal domain able to succeed with an empty
stream, the run records `requestedInternal = false`. -/
theorem GarbageCollect_data_failure_skips_internal :
    GarbageCollect (DomainReq.fail "mark failed") (DomainReq.ok []) []
      = { requestedData := true, requestedInternal := false,
          outcome := some (some "mark failed", [], []) } := by
  rfl

/-- C1 (amended): `GarbageCollect` always requests the data domain; a
failure invoking the data domain's collector returns that error at once
without requesting the internal domain, while a failure invoking the
internal domain's collector still has the data domain requested first;
once both requests succeed the call returns success only at a point where
both removal streams have closed, and returns an error during the drain
only when cancellation has fired (the cancellation error). -/
theorem GarbageCollect_drains_both_or_cancel
    (dr ir : DomainReq) (sched : List SelectChoice) :
    (GarbageCollect dr ir sched).requestedData = true
    ∧ (∀ e, dr = DomainReq.fail e →
        GarbageCollect dr ir sched
          = { requestedData := true, requestedInternal := false,
              outcome := some (some e, [], []) })
    ∧ (∀ d e, dr = DomainReq.ok d → ir = DomainReq.fail e →
        GarbageCollect dr ir sched
          = { requestedData := true, requestedInternal := true,
              outcome := some (some e, [], []) })
    ∧ (∀ d i d2 i2, drainLoop sched d i false false = some (none, d2, i2) →
        d2 = [] ∧ i2 = [])
    ∧ (∀ d i e d2 i2, drainLoop sched d i false false = some (some e, d2, i2) →
        e = ctxErr) := by
  refine ⟨?_, ?_, ?_, ?_, ?_⟩
  · cases dr with
    | fail e => rfl
    | ok d => cases ir with
      | fail e => rfl
      | ok i => rfl
  · intro e he; subst he; rfl
  · intro d e hd hi; subst hd; subst hi; rfl
  · intro d i d2 i2 h
    exact drainLoop_nil_closed sched d i false false d2 i2 (by simp) (by simp) h
  · intro d i e d2 i2 h
    exact drainLoop_error_is_cancel sched d i false false e d2 i2 h

/-- Witness for the amended C1 theorem at concrete inputs: an internal-domain
invocation failure with the data domain requested, and a concrete schedule
that drains one event from each stream and then observes both closed. -/
theorem GarbageCollect_drains_both_or_cancel_witness :
    GarbageCollect (DomainReq.ok ["k1"]) (DomainReq.fail "boom") []
      = { requestedData := true, requestedInternal := true,
          outcome := some (some "boom", [], []) }
    ∧ (([] : List Key) = [] ∧ ([] : List Key) = []) := by
  constructor
  · exact (GarbageCollect_drains_both_or_cancel (DomainReq.ok ["k1"])
      (DomainReq.fail "boom") []).2.2.1 ["k1"] "boom" rfl rfl
  · exact (GarbageCollect_drains_both_or_cancel (DomainReq.ok ["k1"])
      (DomainReq.fail "boom")
      [SelectChoice.recvData, SelectChoice.recvData,
       SelectChoice.recvInternal, SelectChoice.recvInternal]).2.2.2.1
      ["k1"] ["k2"] [] [] (by rfl)

/-- Forwarding loop of the goroutine in `GarbageCollectAsync` (gc.go lines
67-81), for one source stream.  Each forwarding step is a `select` between
sending the event on `out` and observing `ctx.Done()`; the parameter counts
how many forwarding steps happen before the context is observed done
(`none` = it never is).  Returns the events actually sent, the count left
when the stream is exhausted, and whether the goroutine exited early at a
cancellation point (dropping the event in hand). -/
def gcForward : Option Nat → List Key → List Key × Option Nat × Bool
  | c, [] => ([], c, false)
  | some 0, _ :: _ => ([], some 0, true)
  | some (m + 1), k :: rest =>
    let r := gcForward (some m) rest
    (k :: r.1, r.2.1, r.2.2)
  | none, k :: rest =>
    let r := gcForward none rest
    (k :: r.1, r.2.1, r.2.2)

/-- Body of the goroutine in `GarbageCollectAsync`: forward every event of
the data-domain stream, then every event of the internal stream, exiting
early at any cancellation point; `defer close(out)` closes the merged
stream on every exit path, recorded by the Boolean. -/
def gcAsyncGoroutine (rmed internal : List Key) (cancelAfter : Option Nat) :
    List Key × Bool :=
  let r1 := gcForward cancelAfter rmed
  if r1.2.2 then (r1.1, true)
  else
    let r2 := gcForward r1.2.1 internal
    (r1.1 ++ r2.1, true)

/-- Translation of `GarbageCollectAsync` (gc.go lines 54-84): invoke `gc.GC`
on the data domain and then on the internal domain, failing fast on either
invocation error; on success return the merged output stream the goroutine
produces (its sent events, and whether it was closed). -/
def GarbageCollectAsync (dataReq internalReq : DomainReq)
    (cancelAfter : Option Nat) : Except String (List Key × Bool) :=
  match dataReq with
  | DomainReq.fail e => Except.error e
  | DomainReq.ok rmed =>
    match internalReq with
    | DomainReq.fail e => Except.error e
    | DomainReq.ok internal =>
      Except.ok (gcAsyncGoroutine rmed internal cancelAfter)

/-- Closed form of `gcForward` when the context never fires: every event is
forwarded and the loop ends normally. -/
theorem gcForward_none (l : List Key) :
    gcForward none l = (l, none, false) := by
  induction l with
  | nil => rfl
  | cons k rest ih => simp [gcForward, ih]

/-- Closed form of `gcForward` when the context fires after `m` forwarding
steps: if the stream is no longer than `m` it is fully forwarded, otherwise
exactly `m` events are forwarded and the goroutine exits at the
cancellation point, dropping the event in hand. -/
theorem gcForward_some (l : List Key) :
    ∀ m : Nat, gcForward (some m) l =
      if l.length ≤ m then (l, some (m - l.length), false)
      else (l.take m, some 0, true) := by
  induction l with
  | nil => intro m; simp [gcForward]
  | cons k rest ih =>
    intro m
    cases m with
    | zero => simp [gcForward]
    | succ m =>
      rw [gcForward, ih m]
      by_cases h : rest.length ≤ m
      · rw [if_pos h, if_pos (by simpa using Nat.succ_le_succ h)]
        simp [Nat.succ_sub_succ]
      · rw [if_neg h, if_neg (by simpa using fun hh => h (Nat.le_of_succ_le_succ hh))]
        simp

/-- C4: in `GarbageCollectAsync`, every removal event forwarded from the
data domain appears on the merged stream before any event of the internal
domain, the merged stream is closed on every producer exit path, and each
forwarding step is a cancellation point: with the context observed done
after `n` forwarded events, the merged stream carries exactly the first `n`
events of the data stream followed by the internal stream (the event in
hand at the cancellation point is dropped and the goroutine exits); when
cancellation never fires the merged stream is exactly the data stream
followed by the internal stream.  Either invocation failure returns the
error without producing a stream. -/
theorem GarbageCollectAsync_merge_order_close_cancel
    (rmed internal : List Key) (n : Nat) (e : String) (ir : DomainReq)
    (c : Option Nat) :
    GarbageCollectAsync (DomainReq.ok rmed) (DomainReq.ok internal) none
      = Except.ok (rmed ++ internal, true)
    ∧ GarbageCollectAsync (DomainReq.ok rmed) (DomainReq.ok internal) (some n)
      = Except.ok ((rmed ++ internal).take n, true)
    ∧ GarbageCollectAsync (DomainReq.fail e) ir c = Except.error e
    ∧ GarbageCollectAsync (DomainReq.ok rmed) (DomainReq.fail e) c
      = Except.error e := by
  refine ⟨?_, ?_, rfl, rfl⟩
  · show Except.ok (gcAsyncGoroutine rmed internal none) = _
    rw [gcAsyncGoroutine]
    simp [gcForward_none]
  · show Except.ok (gcAsyncGoroutine rmed internal (some n)) = _
    rw [gcAsyncGoroutine]
    rw [gcForward_some rmed n]
    by_cases h : rmed.length ≤ n
    · rw [if_pos h]
      simp only
      rw [gcForward_some internal (n - rmed.length)]
      by_cases h2 : internal.length ≤ n - rmed.length
      · rw [if_pos h2]
        have : (rmed ++ internal).take n = rmed ++ internal := by
          apply List.take_of_length_le
          simp; omega
        simp [this]
      · rw [if_neg h2]
        simp [List.take_append_eq_append_take, List.take_of_length_le h]
    · rw [if_neg h]
      simp only [if_pos rfl]
      have : (rmed ++ internal).take n = rmed.take n := by
        rw [List.take_append_eq_append_take]
        have : n - rmed.length = 0 := by omega
        simp [this]
      simp [this]

/-- A parsed IP as `net.ParseIP` yields it: `none` models the nil `net.IP`
returned for a string that is not an IP address. -/
abbrev ParsedIP := Option String

/-- One registered filter network (`*net.IPNet`): its canonical string (the
map key `f.String()`) and its membership test (`Contains`, an external
`net` routine, carried as a function). -/
structure IPNet where
  repr : String
  contains : ParsedIP → Bool

/-- The `Filters` collection: the values of the `filters` map (the mutex
and the map keying are not observable through `AddrBlocked`). -/
structure Filters where
  filters : List IPNet

/-- Translation of `Filters.AddrBlocked` (filter.go lines 29-46).  The
multiaddr argument is abstracted to the outcome of `manet.DialArgs`:
`none` when dial arguments cannot be parsed (the error branch), otherwise
the dial address string.  `parseIP` carries the external `net.ParseIP`.
An unparseable multiaddr returns false at once; otherwise the address is
split on ":", its first segment parsed as an IP, and the registered filter
networks are scanned for one containing it. -/
def AddrBlocked (parseIP : String → ParsedIP) (fs : Filters)
    (dialArgs : Option String) : Bool :=
  match dialArgs with
  | none => false
  | some addr =>
    let ipstr := (addr.splitOn ":").headD ""
    let ip := parseIP ipstr
    fs.filters.any (fun ft => ft.contains ip)

/-- C10: for every multiaddr whose dial arguments cannot be parsed,
`AddrBlocked` returns false; for every parseable multiaddr it returns true
exactly when some registered filter network contains the parsed IP (the IP
obtained from the first ":"-segment of the dial address). -/
theorem AddrBlocked_unparseable_false_else_membership
    (parseIP : String → ParsedIP) (fs : Filters) (addr : String) :
    AddrBlocked parseIP fs none = false
    ∧ (AddrBlocked parseIP fs (some addr) = true ↔
        ∃ ft ∈ fs.filters,
          ft.contains (parseIP ((addr.splitOn ":").headD "")) = true) := by
  refine ⟨rfl, ?_⟩
  rw [AddrBlocked]
  simp [List.any_eq_true]

/-- Witness for C10 at concrete inputs: a parser that fails on everything
still never blocks an unparseable multiaddr, and a filter collection with
one all-accepting network blocks a parseable one. -/
theorem AddrBlocked_unparseable_false_else_membership_witness :
    AddrBlocked (fun _ => none) (Filters.mk [IPNet.mk "10.0.0.0/8" (fun _ => true)]) none = false
    ∧ AddrBlocked (fun _ => none) (Filters.mk [IPNet.mk "10.0.0.0/8" (fun _ => true)])
        (some "10.1.2.3:4001") = true := by
  constructor
  · exact (AddrBlocked_unparseable_false_else_membership (fun _ => none)
      (Filters.mk [IPNet.mk "10.0.0.0/8" (fun _ => true)]) "10.1.2.3:4001").1
  · exact (AddrBlocked_unparseable_false_else_membership (fun _ => none)
      (Filters.mk [IPNet.mk "10.0.0.0/8" (fun _ => true)]) "10.1.2.3:4001").2.mpr
      ⟨IPNet.mk "10.0.0.0/8" (fun _ => true), by simp, rfl⟩

/-- A live fuse mount handle (`mount.Mount`), identified abstractly. -/
structure MountHandle where
  id : String
deriving DecidableEq

/-- The node's mount state (`node.Mounts`): the IPFS and IPNS mounts, `none`
modelling a nil field. -/
structure NodeMounts where
  Ipfs : Option MountHandle
  Ipns : Option MountHandle
deriving DecidableEq

/-- An error as the commands layer reports it: `client` is true for
`cmds.ClientError`. -/
structure CmdError where
  client : Bool
  msg : String
deriving DecidableEq

/-- The fuse error fragment checked by `doMount` (mount_unix.go). -/
def fuseNoDirectory : String := "fusermount: failed to access mountpoint"

/-- The fuse error string checked by `doMount` (mount_unix.go). -/
def fuseExitStatus1 : String := "fusermount: exit status 1"

/-- Substring test standing for `strings.Contains`: a pattern occurs in a
string exactly when splitting on it yields more than one piece. -/
def containsSubstr (s pat : String) : Bool := (s.splitOn pat).length != 1

/-- Translation of the local `fmtFuseErr` in `doMount`: a "failed to access
mountpoint" fuse error is rewritten and reported as a client error, the
bare "exit status 1" error is replaced by a message naming the mountpoint,
and any other error passes through unchanged. -/
def fmtFuseErr (err : String) (mountpoint : String) : CmdError :=
  if containsSubstr err fuseNoDirectory then
    { client := true,
      msg := (err.replace "fusermount: \"fusermount:" "").replace
        "\\n\", exit status 1" "" }
  else if err = fuseExitStatus1 then
    { client := true, msg := "fuse failed to access mountpoint " ++ mountpoint }
  else
    { client := false, msg := err }

/-- Translation of `doMount` (mount_unix.go lines 182-237).  The two
concurrent mount attempts are abstracted to their joined outcomes
(`rofs.Mount` and `ipns.Mount` either return a handle or an error, the
handle being nil exactly on error).  Result: the node's mount state after
the call, the list of handles unmounted during cleanup (in program order),
and the returned value.  On any error the succeeded mounts are unmounted,
the node state is left untouched, and the IPFS-side error is formatted
first; only when both mounts succeed are the node's mount fields
assigned. -/
def doMount (mounts : NodeMounts) (fsres nsres : Except String MountHandle)
    (fsdir nsdir : String) :
    NodeMounts × List MountHandle × Except CmdError Unit :=
  match fsres, nsres with
  | Except.ok fsm, Except.ok nsm =>
    ({ Ipfs := some fsm, Ipns := some nsm }, [], Except.ok ())
  | Except.ok fsm, Except.error e2 =>
    (mounts, [fsm], Except.error (fmtFuseErr e2 nsdir))
  | Except.error e1, Except.ok nsm =>
    (mounts, [nsm], Except.error (fmtFuseErr e1 fsdir))
  | Except.error e1, Except.error _ =>
    (mounts, [], Except.error (fmtFuseErr e1 fsdir))

/-- C9: if mounting either fuse mountpoint fails, `doMount` unmounts any
mount that did succeed and leaves the node's mount state unchanged,
returning an error; the node's mount fields are assigned exactly when both
mounts succeed. -/
theorem doMount_assigns_only_on_full_success
    (mounts : NodeMounts) (h1 h2 : MountHandle) (e1 e2 : String)
    (fsdir nsdir : String) :
    doMount mounts (Except.ok h1) (Except.ok h2) fsdir nsdir
      = ({ Ipfs := some h1, Ipns := some h2 }, [], Except.ok ())
    ∧ doMount mounts (Except.ok h1) (Except.error e2) fsdir nsdir
      = (mounts, [h1], Except.error (fmtFuseErr e2 nsdir))
    ∧ doMount mounts (Except.error e1) (Except.ok h2) fsdir nsdir
      = (mounts, [h2], Except.error (fmtFuseErr e1 fsdir))
    ∧ doMount mounts (Except.error e1) (Except.error e2) fsdir nsdir
      = (mounts, [], Except.error (fmtFuseErr e1 fsdir)) :=
  ⟨rfl, rfl, rfl, rfl⟩

/-- Result record of the add command (add.go lines 37-41): `Hash` and
`Bytes` carry Go's zero values `""` and `0` unless assigned. -/
structure AddedObject where
  Name : String
  Hash : String := ""
  Bytes : Int := 0
deriving DecidableEq

/-- How many bytes of progress to wait before sending a progress update
message (add.go line 25). -/
def progressReaderIncrement : Int := 1024 * 256

/-- Outcome of one `Read` call on the underlying file: how many bytes it
returned and whether its error was `io.EOF`. -/
structure ReadRes where
  n : Nat
  eof : Bool
deriving DecidableEq

/-- State of the progress-observing reader (add.go lines 405-410): the file
it wraps is abstracted to its name, and the two counters are carried. -/
structure progressReader where
  fileName : String
  bytes : Int
  lastProgress : Int
deriving DecidableEq

/-- Translation of `progressReader.Read` (add.go lines 413-433): add the
bytes read to the running total; when the total since the last emission has
reached the increment, or the read ended with `io.EOF`, emit a progress
record carrying the file name and the cumulative byte count and reset
`lastProgress`. -/
def readStep (r : progressReader) (res : ReadRes) :
    progressReader × Option AddedObject :=
  let bytes := r.bytes + (res.n : Int)
  if progressReaderIncrement ≤ bytes - r.lastProgress ∨ res.eof then
    ({ r with bytes := bytes, lastProgress := bytes },
     some { Name := r.fileName, Bytes := bytes })
  else
    ({ r with bytes := bytes }, none)

/-- All progress records a reader in the given state emits over a sequence
of reads. -/
def progressRunFrom (r : progressReader) : List ReadRes → List AddedObject
  | [] => []
  | res :: rest =>
    match readStep r res with
    | (r2, some o) => o :: progressRunFrom r2 rest
    | (r2, none) => progressRunFrom r2 rest

/-- The progress records emitted while a named file is read through a fresh
progress reader (counters start at zero). -/
def progressRun (fileName : String) (reads : List ReadRes) : List AddedObject :=
  progressRunFrom { fileName := fileName, bytes := 0, lastProgress := 0 } reads

/-- A DAG node: a file's chunk tree as the importer shapes it (layout and
content), or a directory node carrying its name-to-child link list. -/
inductive Node where
  | fileNode (trickle : Bool) (content : List ReadRes)
  | dirNode (links : List (String × Node))

mutual

/-- Structural size of a node, feeding the multihash stand-in. -/
def nodeSize : Node → Nat
  | Node.fileNode _ content => 1 + content.length
  | Node.dirNode links => 1 + linksSize links

/-- Structural size of a link list. -/
def linksSize : List (String × Node) → Nat
  | [] => 0
  | (_, n) :: rest => 1 + nodeSize n + linksSize rest

end

/-- Stand-in for the external multihash of a node: an always nonempty
string derived from the node. -/
def hashOf (n : Node) : String := "Qm" ++ toString (nodeSize n)

/-- The record `outputDagnode` (add.go lines 383-395) sends over the output
channel: name and hash assigned, `Bytes` left at its zero value. -/
def outputDagnode (name : String) (dn : Node) : AddedObject :=
  { Name := name, Hash := hashOf dn }

/-- An input item as the commands/files layer presents it: a file (with the
reads its content produces and an injected importer failure, modelling a
store or chunker error) or a directory of children in encounter order (with
an injected `DAG.Add` failure for its own node type).  The hidden flag
stands for `files.IsHidden`. -/
inductive FsEntry where
  | file (name : String) (hidden : Bool) (reads : List ReadRes) (importErr : Option String)
  | dir (name : String) (hidden : Bool) (children : List FsEntry) (dagAddErr : Option String)

/-- Base name of an entry (`path.Split` of a base name is the name itself). -/
def FsEntry.name : FsEntry → String
  | FsEntry.file nm _ _ _ => nm
  | FsEntry.dir nm _ _ _ => nm

/-- Whether `files.IsHidden` holds of the entry. -/
def FsEntry.isHidden : FsEntry → Bool
  | FsEntry.file _ h _ _ => h
  | FsEntry.dir _ h _ _ => h

/-- Errors of the ingestion pipeline: the tagged hidden-file condition
(`hiddenFileError`), and injected importer, `DAG.Add` and pin-flush
failures. -/
inductive AddErr where
  | hiddenFile (name : String)
  | importFailed (msg : String)
  | dagAddFailed (msg : String)
  | flushFailed (msg : String)
deriving DecidableEq

/-- The switches passed to the add call (add.go lines 270-277; the node and
output channel are modelled by the event trace instead). -/
structure adder where
  progress : Bool
  hidden : Bool
  trickle : Bool

/-- Events `addFile`/`addDir` produce: block writes through the DAG
service, and records sent on the output channel. -/
inductive FileEvent where
  | blockWrite (node : Node)
  | output (o : AddedObject)

/-- Pin retention modes (`pin.Recursive` is the one the add path uses). -/
inductive PinMode where
  | recursive
  | direct
  | indirect

/-- Events observable during one `addSingleFile` call: the shared add-lock
acquisitions and releases on the two block-store domains (`PinLock` on
`DataBlocks` and `StateBlocks`), and the body's writes, outputs, pin and
pin-set flush. -/
inductive AddEvent where
  | acqDataLock
  | acqStateLock
  | relDataLock
  | relStateLock
  | blockWrite (node : Node)
  | output (o : AddedObject)
  | pin (node : Node) (mode : PinMode)
  | flushPins

/-- Body events embedded into the `addSingleFile` trace. -/
def FileEvent.toAddEvent : FileEvent → AddEvent
  | FileEvent.blockWrite n => AddEvent.blockWrite n
  | FileEvent.output o => AddEvent.output o

/-- Translation of the helper `add` (add.go lines 281-303): submit the byte
stream to the importer with the chosen layout; on success the chunk tree is
persisted (a block write) and returned. -/
def add (trickle : Bool) (reads : List ReadRes) (importErr : Option String) :
    List FileEvent × Except AddErr Node :=
  match importErr with
  | some msg => ([], Except.error (AddErr.importFailed msg))
  | none =>
    let nd := Node.fileNode trickle reads
    ([FileEvent.blockWrite nd], Except.ok nd)

mutual

/-- Translation of `adder.addFile` (add.go lines 307-336): a hidden entry is
rejected with the tagged hidden-file condition unless the hidden option is
set; a directory is handed to `addDir`; a plain file is read (through the
progress reader when the progress option is set, emitting its progress
records), built into a chunk tree by the importer, and its completion
record is sent. -/
def addFile (p : adder) (f : FsEntry) : List FileEvent × Except AddErr Node :=
  match f with
  | FsEntry.file nm hid reads importErr =>
    if hid && !p.hidden then ([], Except.error (AddErr.hiddenFile nm))
    else
      let progEvs := if p.progress then (progressRun nm reads).map FileEvent.output else []
      match add p.trickle reads importErr with
      | (evs, Except.error e) => (progEvs ++ evs, Except.error e)
      | (evs, Except.ok nd) =>
        (progEvs ++ evs ++ [FileEvent.output (outputDagnode nm nd)], Except.ok nd)
  | FsEntry.dir nm hid children dagAddErr =>
    if hid && !p.hidden then ([], Except.error (AddErr.hiddenFile nm))
    else addDir p nm children dagAddErr
termination_by sizeOf f

/-- Translation of `adder.addDir` (add.go lines 338-380) past the hidden
check: process the children in encounter order; on a child error other than
hidden, return it at once; otherwise emit the assembled directory node's
completion record and persist the node via `DAG.Add`. -/
def addDir (p : adder) (nm : String) (children : List FsEntry)
    (dagAddErr : Option String) : List FileEvent × Except AddErr Node :=
  match addDirLoop p children with
  | (evs, Except.error e) => (evs, Except.error e)
  | (evs, Except.ok links) =>
    let tree := Node.dirNode links
    match dagAddErr with
    | some msg =>
      (evs ++ [FileEvent.output (outputDagnode nm tree)],
       Except.error (AddErr.dagAddFailed msg))
    | none =>
      (evs ++ [FileEvent.output (outputDagnode nm tree), FileEvent.blockWrite tree],
       Except.ok tree)
termination_by sizeOf children + 1

/-- The child loop of `adder.addDir`: a child's hidden-file condition is
absorbed (the child contributes no link), any other child error aborts the
loop, and each successfully added child is linked under its base name. -/
def addDirLoop (p : adder) (children : List FsEntry) :
    List FileEvent × Except AddErr (List (String × Node)) :=
  match children with
  | [] => ([], Except.ok [])
  | c :: rest =>
    match addFile p c with
    | (evs, Except.error (AddErr.hiddenFile _)) =>
      let r := addDirLoop p rest
      (evs ++ r.1, r.2)
    | (evs, Except.error e) => (evs, Except.error e)
    | (evs, Except.ok nd) =>
      let r := addDirLoop p rest
      match r.2 with
      | Except.error e => (evs ++ r.1, Except.error e)
      | Except.ok links => (evs ++ r.1, Except.ok ((FsEntry.name c, nd) :: links))
termination_by sizeOf children

end

/-- Translation of the closure `addSingleFile` (add.go lines 114-148):
acquire the add-locks on the data and state block-store domains (released
by `defer` in LIFO order on every return path), add the file, and, unless
the only-hash option is set, pin the root recursively and flush the pin
set before returning. -/
def addSingleFile (hashOnly : Bool) (p : adder) (f : FsEntry)
    (flushErr : Option String) : List AddEvent × Except AddErr Unit :=
  let r := addFile p f
  let tail : List AddEvent × Except AddErr Unit :=
    match r.2 with
    | Except.error e => ([], Except.error e)
    | Except.ok rootnd =>
      if hashOnly then ([], Except.ok ())
      else
        match flushErr with
        | some m =>
          ([AddEvent.pin rootnd PinMode.recursive, AddEvent.flushPins],
           Except.error (AddErr.flushFailed m))
        | none =>
          ([AddEvent.pin rootnd PinMode.recursive, AddEvent.flushPins],
           Except.ok ())
  (AddEvent.acqDataLock :: AddEvent.acqStateLock ::
     (r.1.map FileEvent.toAddEvent ++ tail.1
       ++ [AddEvent.relStateLock, AddEvent.relDataLock]),
   tail.2)

/-- Translation of the closure `addFilesSeparately` (add.go lines 152-166):
add each top-level item individually, stopping at the first error. -/
def addFilesSeparately (hashOnly : Bool) (p : adder) (flushErr : Option String) :
    List FsEntry → List AddEvent × Except AddErr Unit
  | [] => ([], Except.ok ())
  | f :: rest =>
    match addSingleFile hashOnly p f flushErr with
    | (evs, Except.error e) => (evs, Except.error e)
    | (evs, Except.ok _) =>
      let r := addFilesSeparately hashOnly p flushErr rest
      (evs ++ r.1, r.2)

/-- Which store DAG construction runs against. -/
inductive StoreKind where
  | persistent
  | ephemeral
deriving DecidableEq

/-- From the `Run` handler (add.go lines 104-110): when the only-hash
option is set the node is replaced by one built over a nil repository, so
all DAG construction targets an ephemeral, non-persisted store. -/
def runStore (hashOnly : Bool) : StoreKind :=
  if hashOnly then StoreKind.ephemeral else StoreKind.persistent

/-- Whether an event is a lock acquisition or release. -/
def AddEvent.isLock : AddEvent → Bool
  | AddEvent.acqDataLock => true
  | AddEvent.acqStateLock => true
  | AddEvent.relDataLock => true
  | AddEvent.relStateLock => true
  | _ => false

/-- Whether an event is a pin or a pin-set flush. -/
def AddEvent.isPinOrFlush : AddEvent → Bool
  | AddEvent.pin _ _ => true
  | AddEvent.flushPins => true
  | _ => false

/-- Body events are never lock events. -/
theorem toAddEvent_not_lock (fe : FileEvent) :
    (FileEvent.toAddEvent fe).isLock = false := by
  cases fe <;> rfl

/-- Body events are never pin or flush events. -/
theorem toAddEvent_not_pinOrFlush (fe : FileEvent) :
    (FileEvent.toAddEvent fe).isPinOrFlush = false := by
  cases fe <;> rfl

/-- C2: every `addSingleFile` call acquires the data-domain and
state-domain add-locks as its first two events — hence before any block is
written — and its trace ends, on every return path (success and every
error), with the two releases in `defer` order; no other lock event
occurs in between, so each lock is acquired and released exactly once.
Any block write sits strictly after both acquisitions. -/
theorem addSingleFile_lock_discipline (hashOnly : Bool) (p : adder)
    (f : FsEntry) (flushErr : Option String) :
    ∃ mid : List AddEvent,
      (addSingleFile hashOnly p f flushErr).1
        = AddEvent.acqDataLock :: AddEvent.acqStateLock ::
            (mid ++ [AddEvent.relStateLock, AddEvent.relDataLock])
      ∧ mid.all (fun e => !(AddEvent.isLock e)) = true
      ∧ ∀ i n, (addSingleFile hashOnly p f flushErr).1.get? i
            = some (AddEvent.blockWrite n) → 2 ≤ i := by
  rcases hr : addFile p f with ⟨body, res⟩
  refine ⟨body.map FileEvent.toAddEvent ++
    (match res with
      | Except.error _ => ([] : List AddEvent)
      | Except.ok rootnd =>
        if hashOnly then []
        else [AddEvent.pin rootnd PinMode.recursive, AddEvent.flushPins]), ?_, ?_, ?_⟩
  · rw [addSingleFile]
    simp only [hr]
    cases res with
    | error e => simp
    | ok rootnd =>
      by_cases hh : hashOnly
      · subst hh; cases flushErr <;> simp
      · have : hashOnly = false := by simpa using hh
        subst this; cases flushErr <;> simp
  · rw [List.all_append, Bool.and_eq_true]
    constructor
    · apply List.all_eq_true.mpr
      intro e he
      rcases List.mem_map.mp he with ⟨fe, _, rfl⟩
      simp [toAddEvent_not_lock]
    · cases res with
      | error e => rfl
      | ok rootnd =>
        by_cases hh : hashOnly
        · subst hh; rfl
        · have : hashOnly = false := by simpa using hh
          subst this; rfl
  · intro i n h
    match i with
    | 0 =>
      rw [addSingleFile] at h
      simp at h
    | 1 =>
      rw [addSingleFile] at h
      simp at h
    | Nat.succ (Nat.succ k) => omega

/-- C3: once a top-level item's tree is fully built without error, with the
only-hash option unset the root is pinned recursively and the pin set is
flushed, both strictly before the add-locks are released; with the
only-hash option set no pin and no flush event occurs anywhere in the
trace, the call succeeds, and (from the `Run` handler) DAG construction
targets the ephemeral nil-repository store. -/
theorem addSingleFile_pin_flush_or_ephemeral (p : adder) (f : FsEntry)
    (flushErr : Option String) (body : List FileEvent) (root : Node)
    (h : addFile p f = (body, Except.ok root)) :
    (addSingleFile false p f flushErr).1
      = AddEvent.acqDataLock :: AddEvent.acqStateLock ::
          (body.map FileEvent.toAddEvent
            ++ [AddEvent.pin root PinMode.recursive, AddEvent.flushPins]
            ++ [AddEvent.relStateLock, AddEvent.relDataLock])
    ∧ (flushErr = none → (addSingleFile false p f flushErr).2 = Except.ok ())
    ∧ (addSingleFile true p f flushErr).1
      = AddEvent.acqDataLock :: AddEvent.acqStateLock ::
          (body.map FileEvent.toAddEvent
            ++ [AddEvent.relStateLock, AddEvent.relDataLock])
    ∧ (addSingleFile true p f flushErr).1.all
        (fun e => !(AddEvent.isPinOrFlush e)) = true
    ∧ (addSingleFile true p f flushErr).2 = Except.ok ()
    ∧ runStore true = StoreKind.ephemeral := by
  refine ⟨?_, ?_, ?_, ?_, ?_, rfl⟩
  · rw [addSingleFile]
    simp only [h]
    cases flushErr <;> simp
  · intro hf; subst hf
    rw [addSingleFile]
    simp only [h]
    simp
  · rw [addSingleFile]
    simp only [h]
    simp
  · rw [addSingleFile]
    simp only [h]
    simp [List.all_eq_true]
    exact ⟨rfl, rfl, fun fe _ => toAddEvent_not_pinOrFlush fe, rfl, rfl⟩
  · rw [addSingleFile]
    simp only [h]
    simp

/-- Witness for C3 at a concrete input: an empty non-hidden file built
without progress; the only-hash path succeeds without pin or flush. -/
theorem addSingleFile_pin_flush_or_ephemeral_witness :
    (addSingleFile true (adder.mk false false false)
        (FsEntry.file "a" false [] none) none).2 = Except.ok () := by
  exact (addSingleFile_pin_flush_or_ephemeral (adder.mk false false false)
    (FsEntry.file "a" false [] none) none
    [FileEvent.blockWrite (Node.fileNode false []),
     FileEvent.output (outputDagnode "a" (Node.fileNode false []))]
    (Node.fileNode false []) (by simp [addFile, add])).2.2.2.2.1

/-- A hidden entry with the hidden option unset is rejected at once with
the tagged hidden-file condition and produces no events. -/
theorem addFile_hidden_rejected (p : adder) (c : FsEntry)
    (hp : p.hidden = false) (hc : c.isHidden = true) :
    addFile p c = ([], Except.error (AddErr.hiddenFile (FsEntry.name c))) := by
  cases c with
  | file nm hid reads importErr =>
    have : hid = true := hc
    subst this
    rw [addFile]
    simp [hp, FsEntry.name]
  | dir nm hid children dagAddErr =>
    have : hid = true := hc
    subst this
    rw [addFile]
    simp [hp, FsEntry.name]

/-- C5: with the hidden option unset, a hidden child of a directory is
skipped — the directory's result (its events, its node, hence its link
list) is exactly what it would be without that child, so the child
contributes no link and does not abort the directory; but when the hidden
entry is itself the sole top-level item, the whole add fails with the
hidden-file error. -/
theorem hidden_child_skipped_sole_hidden_fails (p : adder) (c : FsEntry)
    (hp : p.hidden = false) (hc : c.isHidden = true)
    (nm : String) (hid : Bool) (rest : List FsEntry)
    (dagAddErr : Option String) (hashOnly : Bool) (flushErr : Option String) :
    addFile p (FsEntry.dir nm hid (c :: rest) dagAddErr)
      = addFile p (FsEntry.dir nm hid rest dagAddErr)
    ∧ (addSingleFile hashOnly p c flushErr).2
      = Except.error (AddErr.hiddenFile (FsEntry.name c))
    ∧ (addFilesSeparately hashOnly p flushErr [c]).2
      = Except.error (AddErr.hiddenFile (FsEntry.name c)) := by
  have hrej := addFile_hidden_rejected p c hp hc
  have hsingle : (addSingleFile hashOnly p c flushErr).2
      = Except.error (AddErr.hiddenFile (FsEntry.name c)) := by
    rw [addSingleFile]
    simp only [hrej]
  refine ⟨?_, hsingle, ?_⟩
  · have hloop : addDirLoop p (c :: rest) = addDirLoop p rest := by
      rw [addDirLoop]
      simp only [hrej]
      simp
    rw [addFile, addFile]
    by_cases hh : (hid && !p.hidden) = true
    · rw [if_pos hh, if_pos hh]
    · rw [if_neg hh, if_neg hh]
      rw [addDir, addDir, hloop]
  · rw [addFilesSeparately]
    rcases hs : addSingleFile hashOnly p c flushErr with ⟨evs, r⟩
    have : r = Except.error (AddErr.hiddenFile (FsEntry.name c)) := by
      have := hsingle
      rw [hs] at this
      exact this
    subst this
    simp

/-- Witness for C5 at concrete inputs: a directory holding one hidden file
equals the empty directory, and adding the hidden file alone fails with
the hidden-file error. -/
theorem hidden_child_skipped_sole_hidden_fails_witness :
    addFile (adder.mk false false false)
        (FsEntry.dir "d" false [FsEntry.file ".secret" true [] none] none)
      = addFile (adder.mk false false false) (FsEntry.dir "d" false [] none)
    ∧ (addFilesSeparately false (adder.mk false false false) none
        [FsEntry.file ".secret" true [] none]).2
      = Except.error (AddErr.hiddenFile ".secret") := by
  have h := hidden_child_skipped_sole_hidden_fails (adder.mk false false false)
    (FsEntry.file ".secret" true [] none) rfl rfl "d" false [] none false none
  exact ⟨h.1, h.2.2⟩

/-- C6: when processing some child of a directory fails with an error other
than the absorbed hidden-file condition, `addDir` returns exactly the child
loop's events and that error: directory construction aborts at once, no
completion record for the directory is emitted and no directory node is
persisted via the DAG service. -/
theorem addDir_aborts_without_persisting (p : adder) (nm : String)
    (children : List FsEntry) (dagAddErr : Option String)
    (evs : List FileEvent) (e : AddErr)
    (h : addDirLoop p children = (evs, Except.error e)) :
    addDir p nm children dagAddErr = (evs, Except.error e) := by
  rw [addDir, h]

/-- Witness for C6 at a concrete input: a directory whose only child fails
with an injected importer error aborts with that error and no events. -/
theorem addDir_aborts_without_persisting_witness :
    addDir (adder.mk false false false) "d"
        [FsEntry.file "x" false [] (some "disk full")] none
      = ([], Except.error (AddErr.importFailed "disk full")) := by
  exact addDir_aborts_without_persisting (adder.mk false false false) "d"
    [FsEntry.file "x" false [] (some "disk full")] none []
    (AddErr.importFailed "disk full")
    (by simp [addDirLoop, addFile, add])

/-- A record never carries both a hash and a byte count (body events). -/
def fileOutputOK : FileEvent → Bool
  | FileEvent.output o => (o.Hash == "") || (o.Bytes == 0)
  | _ => true

/-- A record never carries both a hash and a byte count (trace events). -/
def outputNeverBoth : AddEvent → Bool
  | AddEvent.output o => (o.Hash == "") || (o.Bytes == 0)
  | _ => true

/-- The two record predicates agree across the embedding of body events. -/
theorem outputNeverBoth_toAddEvent (fe : FileEvent) :
    outputNeverBoth (FileEvent.toAddEvent fe) = fileOutputOK fe := by
  cases fe <;> rfl

/-- Every record `progressReader.Read` emits leaves `Hash` at its zero
value. -/
theorem readStep_emission_hash (r : progressReader) (res : ReadRes)
    (r2 : progressReader) (o : AddedObject)
    (h : readStep r res = (r2, some o)) : o.Hash = "" := by
  rw [readStep] at h
  by_cases hc : progressReaderIncrement ≤ r.bytes + (res.n : Int) - r.lastProgress ∨ res.eof
  · rw [if_pos hc] at h
    have := (Prod.mk.injEq .. ▸ h).2
    simp only [Option.some.injEq] at this
    rw [← this]
  · rw [if_neg hc] at h
    simp at h

/-- Every record a progress run emits leaves `Hash` at its zero value. -/
theorem progressRunFrom_hash_empty (reads : List ReadRes) :
    ∀ r : progressReader,
      ((progressRunFrom r reads).all (fun o => o.Hash == "")) = true := by
  induction reads with
  | nil => intro r; rfl
  | cons res rest ih =>
    intro r
    rw [progressRunFrom]
    rcases h : readStep r res with ⟨r2, emis⟩
    cases emis with
    | none => simpa using ih r2
    | some o =>
      simp only [List.all_cons, Bool.and_eq_true]
      refine ⟨?_, ih r2⟩
      simp [readStep_emission_hash r res r2 o h]

mutual

/-- Every record in an `addFile` trace carries a hash with zero bytes or
bytes with an empty hash, never both. -/
theorem addFile_outputs_ok (p : adder) (f : FsEntry) :
    ((addFile p f).1.all fileOutputOK) = true := by
  cases f with
  | file nm hid reads importErr =>
    rw [addFile]
    by_cases hh : (hid && !p.hidden) = true
    · rw [if_pos hh]; rfl
    · rw [if_neg hh]
      rcases ha : add p.trickle reads importErr with ⟨evs, res⟩
      have hevs : evs.all fileOutputOK = true := by
        cases importErr with
        | some m =>
          rw [add] at ha
          have := (Prod.mk.injEq .. ▸ ha).1
          rw [← this]; rfl
        | none =>
          rw [add] at ha
          have := (Prod.mk.injEq .. ▸ ha).1
          rw [← this]; rfl
      have hprog : ((if p.progress
            then (progressRun nm reads).map FileEvent.output
            else []).all fileOutputOK) = true := by
        by_cases hp : p.progress = true
        · rw [if_pos hp]
          apply List.all_eq_true.mpr
          intro e he
          rcases List.mem_map.mp he with ⟨o, ho, rfl⟩
          have := List.all_eq_true.mp (progressRunFrom_hash_empty reads
            { fileName := nm, bytes := 0, lastProgress := 0 }) o ho
          simp only [fileOutputOK]
          simp only at this
          simp [this]
        · rw [if_neg hp]; rfl
      simp only [ha]
      cases res with
      | error e =>
        simp [List.all_append, hevs, hprog]
      | ok nd =>
        simp [List.all_append, hevs, hprog, fileOutputOK, outputDagnode]
  | dir nm hid children dagAddErr =>
    rw [addFile]
    by_cases hh : (hid && !p.hidden) = true
    · rw [if_pos hh]; rfl
    · rw [if_neg hh]
      exact addDir_outputs_ok p nm children dagAddErr
termination_by sizeOf f

/-- Every record in an `addDir` trace satisfies the hash/bytes split. -/
theorem addDir_outputs_ok (p : adder) (nm : String) (children : List FsEntry)
    (dagAddErr : Option String) :
    ((addDir p nm children dagAddErr).1.all fileOutputOK) = true := by
  rw [addDir]
  rcases h : addDirLoop p children with ⟨evs, res⟩
  have hevs : evs.all fileOutputOK = true := by
    have := addDirLoop_outputs_ok p children
    rw [h] at this
    exact this
  cases res with
  | error e => exact hevs
  | ok links =>
    cases dagAddErr with
    | some m => simp [List.all_append, hevs, fileOutputOK, outputDagnode]
    | none => simp [List.all_append, hevs, fileOutputOK, outputDagnode]
termination_by sizeOf children + 1

/-- Every record in the directory child loop's trace satisfies the
hash/bytes split. -/
theorem addDirLoop_outputs_ok (p : adder) (children : List FsEntry) :
    ((addDirLoop p children).1.all fileOutputOK) = true := by
  cases children with
  | nil => simp [addDirLoop]
  | cons c rest =>
    rw [addDirLoop]
    rcases h : addFile p c with ⟨evs, res⟩
    have hevs : evs.all fileOutputOK = true := by
      have := addFile_outputs_ok p c
      rw [h] at this
      exact this
    have hrest : ((addDirLoop p rest).1.all fileOutputOK) = true :=
      addDirLoop_outputs_ok p rest
    cases res with
    | error e =>
      cases e with
      | hiddenFile s => simp [List.all_append, hevs, hrest]
      | importFailed m => exact hevs
      | dagAddFailed m => exact hevs
      | flushFailed m => exact hevs
    | ok nd =>
      rcases h2 : (addDirLoop p rest).2 with e2 | links
      · simp [h2, List.all_append, hevs, hrest]
      · simp [h2, List.all_append, hevs, hrest]
termination_by sizeOf children

end

/-- The multihash stand-in is never the empty string. -/
theorem hashOf_ne_empty (n : Node) : hashOf n ≠ "" := by
  intro h
  have hlen := congrArg String.length h
  rw [hashOf, String.length_append] at hlen
  have h1 : ("Qm" : String).length = 2 := rfl
  have h2 : ("" : String).length = 0 := rfl
  omega

/-- An `addSingleFile` trace satisfies an all-records predicate once its
body records and its pin/flush segment do. -/
theorem trace_all_outputNeverBoth (body : List FileEvent)
    (tail : List AddEvent)
    (hb : ∀ e ∈ body.map FileEvent.toAddEvent, outputNeverBoth e = true)
    (ht : ∀ e ∈ tail, outputNeverBoth e = true) :
    ((AddEvent.acqDataLock :: AddEvent.acqStateLock ::
        (body.map FileEvent.toAddEvent ++ tail
          ++ [AddEvent.relStateLock, AddEvent.relDataLock])).all
      outputNeverBoth) = true := by
  apply List.all_eq_true.mpr
  intro e he
  rcases List.mem_cons.mp he with rfl | he2
  · rfl
  rcases List.mem_cons.mp he2 with rfl | he3
  · rfl
  rcases List.mem_append.mp he3 with h4 | h5
  · rcases List.mem_append.mp h4 with h6 | h7
    · exact hb e h6
    · exact ht e h7
  · rcases List.mem_cons.mp h5 with rfl | h6
    · rfl
    · rcases List.mem_cons.mp h6 with rfl | h7
      · rfl
      · cases h7

/-- C7: every record emitted on the ingestion output stream during an
`addSingleFile` call has an empty hash or a zero byte count — never both
fields set.  Completion records built by `outputDagnode` carry a nonempty
hash and leave `Bytes` at zero; progress records emitted by
`progressReader.Read` leave `Hash` empty. -/
theorem AddedObject_completion_or_progress (hashOnly : Bool) (p : adder)
    (f : FsEntry) (flushErr : Option String) (nm : String) (dn : Node)
    (r : progressReader) (res : ReadRes) :
    ((addSingleFile hashOnly p f flushErr).1.all outputNeverBoth) = true
    ∧ (outputDagnode nm dn).Hash ≠ ""
    ∧ (outputDagnode nm dn).Bytes = 0
    ∧ ((readStep r res).2.all (fun o => o.Hash == "")) = true := by
  refine ⟨?_, hashOf_ne_empty dn, rfl, ?_⟩
  · rcases hr : addFile p f with ⟨body, bres⟩
    have hbody : ∀ fe ∈ body, fileOutputOK fe = true := by
      have := addFile_outputs_ok p f
      rw [hr] at this
      exact fun fe hfe => List.all_eq_true.mp this fe hfe
    have hmap : ∀ e ∈ body.map FileEvent.toAddEvent, outputNeverBoth e = true := by
      intro e he
      rcases List.mem_map.mp he with ⟨fe, hfe, rfl⟩
      rw [outputNeverBoth_toAddEvent]
      exact hbody fe hfe
    have hpinflush : ∀ rootnd : Node,
        ∀ e ∈ [AddEvent.pin rootnd PinMode.recursive, AddEvent.flushPins],
          outputNeverBoth e = true := by
      intro rootnd e he
      rcases List.mem_cons.mp he with rfl | he2
      · rfl
      · rcases List.mem_cons.mp he2 with rfl | he3
        · rfl
        · cases he3
    rw [addSingleFile]
    simp only [hr]
    cases bres with
    | error e2 =>
      exact trace_all_outputNeverBoth body [] hmap (fun x hx => by cases hx)
    | ok rootnd =>
      cases hashOnly with
      | true =>
        exact trace_all_outputNeverBoth body [] hmap (fun x hx => by cases hx)
      | false =>
        cases flushErr with
        | some m =>
          exact trace_all_outputNeverBoth body
            [AddEvent.pin rootnd PinMode.recursive, AddEvent.flushPins]
            hmap (hpinflush rootnd)
        | none =>
          exact trace_all_outputNeverBoth body
            [AddEvent.pin rootnd PinMode.recursive, AddEvent.flushPins]
            hmap (hpinflush rootnd)
  · rcases hstep : readStep r res with ⟨r2, emis⟩
    cases emis with
    | none => rfl
    | some o =>
      simp [readStep_emission_hash r res r2 o hstep]

/-- C8 (counterexample): the claim says a progress record is emitted
exactly when the bytes read since the last emission exceed the threshold
(or at end-of-stream).  The code compares with `>=`: a read bringing the
delta to exactly the threshold — here 262144 bytes with the counters at
zero and no end-of-stream — emits a record although the delta does not
exceed the threshold. -/
theorem readStep_emits_at_exact_threshold :
    (readStep { fileName := "f", bytes := 0, lastProgress := 0 }
        { n := 262144, eof := false }).2
      = some { Name := "f", Bytes := 262144 }
    ∧ ((0 : Int) + (262144 : Nat) - 0 = progressReaderIncrement)
    ∧ ({ n := 262144, eof := false } : ReadRes).eof = false := by
  refine ⟨?_, by norm_num [progressReaderIncrement], rfl⟩
  rw [readStep]
  norm_num [progressReaderIncrement]

/-- C8 (amended): over every read, the progress reader emits a record
exactly when the cumulative bytes read since the last emission reach or
exceed the threshold (256 KiB) or the read returned end-of-stream (where
emission is unconditional); the emitted record carries the file name, the
cumulative byte count and no hash, and the running total always advances
by the bytes read. -/
theorem readStep_threshold_or_eof (r : progressReader) (res : ReadRes) :
    ((readStep r res).2.isSome = true ↔
      (progressReaderIncrement ≤ r.bytes + (res.n : Int) - r.lastProgress
        ∨ res.eof = true))
    ∧ ((readStep r res).2.all (fun o =>
        (o.Name == r.fileName) && (o.Bytes == r.bytes + (res.n : Int))
          && (o.Hash == "")) = true)
    ∧ (res.eof = true → (readStep r res).2.isSome = true)
    ∧ ((readStep r res).1.bytes = r.bytes + (res.n : Int)) := by
  rw [readStep]
  by_cases hc : progressReaderIncrement ≤ r.bytes + (res.n : Int) - r.lastProgress
      ∨ res.eof = true
  · rw [if_pos hc]
    refine ⟨by simpa using hc, by simp, fun _ => rfl, rfl⟩
  · rw [if_neg hc]
    refine ⟨by simpa using hc, by simp, ?_, rfl⟩
    intro he
    exact absurd (Or.inr he) hc

/-- Witness for the amended C8 theorem at a concrete input: a 10-byte read
ending in end-of-stream emits a record with the cumulative count. -/
theorem readStep_threshold_or_eof_witness :
    (readStep { fileName := "g", bytes := 0, lastProgress := 0 }
        { n := 10, eof := true }).2.isSome = true := by
  exact (readStep_threshold_or_eof
    { fileName := "g", bytes := 0, lastProgress := 0 }
    { n := 10, eof := true }).2.2.1 rfl

end GoIpfs
